import Mathlib

/-!
# WordLang: a shallow embedding of the interpreter

This file embeds the WordLang interpreter (recursive-descent parser,
lexical-scope symbol table, tree-walking evaluator) in Lean and proves
properties of that embedding.

Conventions used throughout:

* `std::set<std::string>` (`words_t`) is modelled as a strictly ascending
  `List String`; `setInsert` and `setErase` mirror `std::set::insert` and
  `std::set::erase`.
* The diagnostic facility `Error(line, msg…)` (which prints
  `ERROR (line N): …` and calls `exit(1)`) is modelled by the
  `RunError.fatal line msg` exception; a failed C++ `assert` (which aborts
  with no line-tagged diagnostic) is modelled by `RunError.assertFail msg`.
  The two are distinct constructors because the program's observable
  behaviour differs (only `Error` produces the documented diagnostic).
* Recursive parser/evaluator functions take a fuel parameter; exhausting it
  yields `RunError.outOfFuel`.  A C++ run that loops forever corresponds to
  every fuel running out.
* The file system read by `load` is modelled by a total map
  `fs : String → List String` giving the whitespace-delimited tokens of each
  path, `[]` for a missing or unreadable path (opening a bad `ifstream`
  yields zero extraction successes).
-/

/-! ## `words_t`: ordered string sets as sorted lists -/

/-- `std::set<std::string>::insert`: keep the list strictly ascending. -/
def setInsert (w : String) : List String → List String
  | [] => [w]
  | x :: xs => if w < x then w :: x :: xs else if w = x then x :: xs else x :: setInsert w xs

/-- `std::set<std::string>::erase`: remove `w` if present. -/
def setErase (w : String) : List String → List String
  | [] => []
  | x :: xs => if w = x then xs else x :: setErase w xs

/-- `for (word : right) left.insert(word);` — the `+` branch of `MATH_OP`. -/
def mathPlus (left right : List String) : List String :=
  right.foldl (fun l w => setInsert w l) left

/-- `for (word : right) left.erase(word);` — the `-` branch of `MATH_OP`. -/
def mathMinus (left right : List String) : List String :=
  right.foldl (fun l w => setErase w l) left

theorem setInsert_mem (a w : String) (l : List String) :
    a ∈ setInsert w l ↔ a = w ∨ a ∈ l := by
  induction l with
  | nil => simp [setInsert]
  | cons x xs ih =>
    by_cases h1 : w < x
    · simp [setInsert, h1]
    · by_cases h2 : w = x
      · subst h2; simp [setInsert, h1]
      · simp [setInsert, h1, h2, ih]
        constructor
        · rintro (h | h | h) <;> tauto
        · rintro (h | h | h) <;> tauto

theorem setInsert_sorted (w : String) (l : List String) (h : List.Sorted (· < ·) l) :
    List.Sorted (· < ·) (setInsert w l) := by
  induction l with
  | nil => simp [setInsert]
  | cons x xs ih =>
    rw [List.sorted_cons] at h
    by_cases h1 : w < x
    · rw [setInsert, if_pos h1, List.sorted_cons]
      refine ⟨?_, List.sorted_cons.mpr h⟩
      intro b hb
      rcases List.mem_cons.mp hb with rfl | hb
      · exact h1
      · exact h1.trans (h.1 b hb)
    · by_cases h2 : w = x
      · subst h2
        rw [setInsert, if_neg h1, if_pos rfl]
        exact List.sorted_cons.mpr h
      · rw [setInsert, if_neg h1, if_neg h2, List.sorted_cons]
        refine ⟨?_, ih h.2⟩
        intro b hb
        rcases (setInsert_mem b w xs).mp hb with rfl | hb
        · rcases lt_trichotomy b x with hlt | rfl | hgt
          · exact absurd hlt h1
          · exact absurd rfl h2
          · exact hgt
        · exact h.1 b hb

theorem setErase_sublist (w : String) (l : List String) :
    List.Sublist (setErase w l) l := by
  induction l with
  | nil => simp [setErase]
  | cons x xs ih =>
    by_cases h1 : w = x
    · rw [setErase, if_pos h1]
      exact List.sublist_cons_self x xs
    · rw [setErase, if_neg h1]
      exact List.Sublist.cons₂ x ih

theorem setErase_sorted (w : String) (l : List String) (h : List.Sorted (· < ·) l) :
    List.Sorted (· < ·) (setErase w l) :=
  List.Pairwise.sublist (setErase_sublist w l) h

theorem setErase_mem (a w : String) (l : List String) (hnd : l.Nodup) :
    a ∈ setErase w l ↔ a ∈ l ∧ a ≠ w := by
  induction l with
  | nil => simp [setErase]
  | cons x xs ih =>
    rw [List.nodup_cons] at hnd
    by_cases h1 : w = x
    · subst h1
      rw [setErase, if_pos rfl]
      constructor
      · intro h
        exact ⟨List.mem_cons_of_mem _ h, fun hw => hnd.1 (hw ▸ h)⟩
      · rintro ⟨h, hne⟩
        rcases List.mem_cons.mp h with rfl | h
        · exact absurd rfl hne
        · exact h
    · rw [setErase, if_neg h1]
      constructor
      · intro h
        rcases List.mem_cons.mp h with rfl | h
        · exact ⟨List.mem_cons_self _ _, fun hw => h1 hw.symm⟩
        · have := (ih hnd.2).mp h
          exact ⟨List.mem_cons_of_mem _ this.1, this.2⟩
      · rintro ⟨h, hne⟩
        rcases List.mem_cons.mp h with rfl | h
        · exact List.mem_cons_self _ _
        · exact List.mem_cons_of_mem _ ((ih hnd.2).mpr ⟨h, hne⟩)

theorem setErase_nodup (w : String) (l : List String) (h : l.Nodup) :
    (setErase w l).Nodup :=
  List.Nodup.sublist (setErase_sublist w l) h

theorem mathPlus_mem (a : String) (left right : List String) :
    a ∈ mathPlus left right ↔ a ∈ left ∨ a ∈ right := by
  induction right generalizing left with
  | nil => simp [mathPlus]
  | cons r rs ih =>
    rw [mathPlus, List.foldl_cons]
    rw [show List.foldl (fun l w => setInsert w l) (setInsert r left) rs =
          mathPlus (setInsert r left) rs from rfl, ih]
    rw [setInsert_mem]
    constructor
    · rintro ((h | h) | h) <;> simp [h]
    · rintro (h | h)
      · tauto
      · rcases List.mem_cons.mp h with rfl | h <;> tauto

theorem mathPlus_sorted (left right : List String) (h : List.Sorted (· < ·) left) :
    List.Sorted (· < ·) (mathPlus left right) := by
  induction right generalizing left with
  | nil => exact h
  | cons r rs ih =>
    rw [mathPlus, List.foldl_cons]
    exact ih (setInsert r left) (setInsert_sorted r left h)

theorem mathMinus_mem (a : String) (left right : List String) (hnd : left.Nodup) :
    a ∈ mathMinus left right ↔ a ∈ left ∧ a ∉ right := by
  induction right generalizing left with
  | nil => simp [mathMinus]
  | cons r rs ih =>
    rw [mathMinus, List.foldl_cons]
    rw [show List.foldl (fun l w => setErase w l) (setErase r left) rs =
          mathMinus (setErase r left) rs from rfl,
        ih (setErase r left) (setErase_nodup r left hnd), setErase_mem a r left hnd]
    constructor
    · rintro ⟨⟨h1, h2⟩, h3⟩
      refine ⟨h1, ?_⟩
      intro hmem
      rcases List.mem_cons.mp hmem with rfl | hmem
      · exact h2 rfl
      · exact h3 hmem
    · rintro ⟨h1, h2⟩
      exact ⟨⟨h1, fun hr => h2 (hr ▸ List.mem_cons_self r rs)⟩,
             fun hmem => h2 (List.mem_cons_of_mem r hmem)⟩

theorem mathMinus_sorted (left right : List String) (h : List.Sorted (· < ·) left) :
    List.Sorted (· < ·) (mathMinus left right) := by
  induction right generalizing left with
  | nil => exact h
  | cons r rs ih =>
    rw [mathMinus, List.foldl_cons]
    exact ih (setErase r left) (setErase_sorted r left h)

/-- Two strictly ascending lists with the same members are equal
(`std::set` extensionality for the sorted-list representation). -/
theorem sorted_ext (l₁ l₂ : List String) (h₁ : List.Sorted (· < ·) l₁)
    (h₂ : List.Sorted (· < ·) l₂) (h : ∀ a, a ∈ l₁ ↔ a ∈ l₂) : l₁ = l₂ := by
  haveI : IsAntisymm String (· < ·) :=
    ⟨fun a b hab hba => absurd hba (asymm hab)⟩
  refine List.eq_of_perm_of_sorted ?_ h₁ h₂
  refine List.perm_of_nodup_nodup_toFinset_eq h₁.nodup h₂.nodup ?_
  ext a
  simp [List.mem_toFinset, h a]

/-! ## Substring matching (`std::string::find`) -/

/-- `pat` occurs at the start of `l`. -/
def prefixAt : List Char → List Char → Bool
  | [], _ => true
  | _ :: _, [] => false
  | p :: ps, c :: cs => p = c && prefixAt ps cs

/-- `word.find(pat) != std::string::npos`: `pat` occurs contiguously in `word`. -/
def strFindHit (pat : List Char) : List Char → Bool
  | [] => prefixAt pat []
  | c :: cs => prefixAt pat (c :: cs) || strFindHit pat cs

theorem prefixAt_iff (pat l : List Char) :
    prefixAt pat l = true ↔ ∃ rest, l = pat ++ rest := by
  induction pat generalizing l with
  | nil => simp [prefixAt]
  | cons p ps ih =>
    cases l with
    | nil => simp [prefixAt]
    | cons c cs =>
      rw [prefixAt, Bool.and_eq_true, decide_eq_true_iff, ih]
      constructor
      · rintro ⟨rfl, rest, rfl⟩
        exact ⟨rest, rfl⟩
      · rintro ⟨rest, h⟩
        rw [List.cons_append] at h
        injection h with h1 h2
        exact ⟨h1.symm, rest, h2⟩

theorem strFindHit_iff (pat w : List Char) :
    strFindHit pat w = true ↔ ∃ pre post, w = pre ++ pat ++ post := by
  induction w with
  | nil =>
    rw [strFindHit, prefixAt_iff]
    constructor
    · rintro ⟨rest, h⟩
      exact ⟨[], rest, by simpa using h⟩
    · rintro ⟨pre, post, h⟩
      rcases List.append_eq_nil.mp ((List.append_assoc pre pat post ▸ h).symm) with ⟨h1, h2⟩
      rcases List.append_eq_nil.mp h2 with ⟨h3, h4⟩
      exact ⟨[], by simp [h3]⟩
  | cons c cs ih =>
    rw [strFindHit, Bool.or_eq_true, prefixAt_iff, ih]
    constructor
    · rintro (⟨rest, h⟩ | ⟨pre, post, h⟩)
      · exact ⟨[], rest, by simpa using h⟩
      · exact ⟨c :: pre, post, by simp [h]⟩
    · rintro ⟨pre, post, h⟩
      cases pre with
      | nil => exact Or.inl ⟨post, by simpa using h⟩
      | cons p ps =>
        right
        rw [List.cons_append, List.cons_append] at h
        injection h with h1 h2
        exact ⟨ps, post, h2⟩

/-- The inner loop of the `FILTER`/`FILTER_OUT` case: `word` matches if any
entry of `filters` occurs in it as a substring (`word.find(filter) != npos`). -/
def matchesAny (word : String) (filters : List String) : Bool :=
  filters.any (fun f => strFindHit f.toList word.toList)

/-- The `FILTER`/`FILTER_OUT` loop: keep `word` when `match` agrees with the
direction of the node (`match && !filter_out || !match && filter_out`). -/
def filterRun (filter_out : Bool) (words filters : List String) : List String :=
  words.foldl
    (fun out word =>
      if (matchesAny word filters && !filter_out) || (!matchesAny word filters && filter_out)
      then setInsert word out else out)
    []

theorem filterRun_foldl_mem (a : String) (fo : Bool) (words filters out : List String) :
    a ∈ words.foldl
        (fun out word =>
          if (matchesAny word filters && !fo) || (!matchesAny word filters && fo)
          then setInsert word out else out) out ↔
      a ∈ out ∨ (a ∈ words ∧ matchesAny a filters = !fo) := by
  induction words generalizing out with
  | nil => simp
  | cons w ws ih =>
    rw [List.foldl_cons, ih]
    by_cases hm : matchesAny w filters = !fo
    · rw [if_pos (by cases fo <;> simp_all), setInsert_mem]
      constructor
      · rintro ((rfl | h) | h) <;> tauto
      · rintro (h | ⟨h1, h2⟩)
        · tauto
        · rcases List.mem_cons.mp h1 with rfl | h1 <;> tauto
    · rw [if_neg (by cases fo <;> simp_all)]
      constructor
      · rintro (h | h) <;> tauto
      · rintro (h | ⟨h1, h2⟩)
        · tauto
        · rcases List.mem_cons.mp h1 with rfl | h1
          · exact absurd h2 hm
          · tauto

theorem filterRun_mem (a : String) (fo : Bool) (words filters : List String) :
    a ∈ filterRun fo words filters ↔ a ∈ words ∧ matchesAny a filters = !fo := by
  rw [filterRun, filterRun_foldl_mem]
  simp

theorem filterRun_sorted (fo : Bool) (words filters : List String) :
    List.Sorted (· < ·) (filterRun fo words filters) := by
  rw [filterRun]
  generalize hout : ([] : List String) = out
  have hsorted : List.Sorted (· < ·) out := hout ▸ List.sorted_nil
  clear hout
  induction words generalizing out with
  | nil => exact hsorted
  | cons w ws ih =>
    rw [List.foldl_cons]
    split
    · exact ih _ (setInsert_sorted w out hsorted)
    · exact ih _ hsorted

/-! ## `load` and `print` helpers -/

/-- The `LOAD` loop: for every path (in iteration order of the path set) read
its whitespace-delimited tokens and insert them all into one result set.
`fs` maps a path to its token list; a missing or unreadable path maps to `[]`. -/
def loadRun (fs : String → List String) (filenames : List String) : List String :=
  filenames.foldl (fun out name => (fs name).foldl (fun o w => setInsert w o) out) []

theorem insert_foldl_mem (a : String) (ws out : List String) :
    a ∈ ws.foldl (fun o w => setInsert w o) out ↔ a ∈ out ∨ a ∈ ws := by
  induction ws generalizing out with
  | nil => simp
  | cons w ws ih =>
    rw [List.foldl_cons, ih, setInsert_mem]
    constructor
    · rintro ((rfl | h) | h) <;> tauto
    · rintro (h | h)
      · tauto
      · rcases List.mem_cons.mp h with rfl | h <;> tauto

theorem insert_foldl_sorted (ws out : List String) (h : List.Sorted (· < ·) out) :
    List.Sorted (· < ·) (ws.foldl (fun o w => setInsert w o) out) := by
  induction ws generalizing out with
  | nil => exact h
  | cons w ws ih => exact ih _ (setInsert_sorted w out h)

theorem loadRun_foldl_mem (a : String) (fs : String → List String)
    (filenames out : List String) :
    a ∈ filenames.foldl (fun out name => (fs name).foldl (fun o w => setInsert w o) out) out ↔
      a ∈ out ∨ ∃ p ∈ filenames, a ∈ fs p := by
  induction filenames generalizing out with
  | nil => simp
  | cons f fsn ih =>
    rw [List.foldl_cons, ih, insert_foldl_mem]
    constructor
    · rintro ((h | h) | ⟨p, hp, ha⟩)
      · tauto
      · exact Or.inr ⟨f, List.mem_cons_self f fsn, h⟩
      · exact Or.inr ⟨p, List.mem_cons_of_mem f hp, ha⟩
    · rintro (h | ⟨p, hp, ha⟩)
      · tauto
      · rcases List.mem_cons.mp hp with rfl | hp
        · tauto
        · exact Or.inr ⟨p, hp, ha⟩

theorem loadRun_mem (a : String) (fs : String → List String) (filenames : List String) :
    a ∈ loadRun fs filenames ↔ ∃ p ∈ filenames, a ∈ fs p := by
  rw [loadRun, loadRun_foldl_mem]
  simp

theorem loadRun_sorted (fs : String → List String) (filenames : List String) :
    List.Sorted (· < ·) (loadRun fs filenames) := by
  rw [loadRun]
  generalize hout : ([] : List String) = out
  have hsorted : List.Sorted (· < ·) out := hout ▸ List.sorted_nil
  clear hout
  induction filenames generalizing out with
  | nil => exact hsorted
  | cons f fsn ih =>
    rw [List.foldl_cons]
    exact ih _ (insert_foldl_sorted _ _ hsorted)

/-- One output line of the `PRINT` case: `[`, then every element of the set
prefixed by `,` (the first element included), then a space and `]`. -/
def printWords (words : List String) : String :=
  "[" ++ String.join (words.map (fun word => "," ++ word)) ++ " ]"

/-! ## AST (`ASTNode`) -/

/-- `ASTNode::Type`. -/
inductive NodeType where
  | EMPTY
  | STATEMENT_BLOCK
  | ASSIGN
  | MATH_OP
  | VARIABLE
  | LITERAL
  | LOAD
  | PRINT
  | FILTER
  | FILTER_OUT
deriving DecidableEq, Repr

/-- `ASTNode`: a type tag, a `size_t value` (operator character for `MATH_OP`,
variable slot for `VARIABLE`), a `words_t words` payload (used by `LITERAL`)
and an owned child list. -/
inductive ASTNode where
  | mk (type : NodeType) (value : Nat) (words : List String) (children : List ASTNode)
deriving Repr

def ASTNode.type : ASTNode → NodeType
  | .mk t _ _ _ => t

def ASTNode.value : ASTNode → Nat
  | .mk _ v _ _ => v

def ASTNode.words : ASTNode → List String
  | .mk _ _ w _ => w

def ASTNode.children : ASTNode → List ASTNode
  | .mk _ _ _ c => c

/-- The runtime-failure channel.  `fatal` is the `Error(line, …)` facility
(`ERROR (line N): message` on `stderr`, then `exit(1)`); `assertFail` is a
failed C++ `assert` (aborts with no line-tagged diagnostic); `outOfFuel`
means the recursion budget of the embedding ran out. -/
inductive RunError where
  | fatal (line : Nat) (msg : String)
  | assertFail (msg : String)
  | outOfFuel
deriving DecidableEq, Repr

/-- `ASTNode::AddChild`, including its `assert(child.GetType() != EMPTY)`. -/
def AddChild (parent child : ASTNode) : Except RunError ASTNode :=
  if child.type = NodeType.EMPTY then
    .error (.assertFail "AddChild: child.GetType() != EMPTY")
  else
    match parent with
    | .mk t v w cs => .ok (.mk t v w (cs ++ [child]))

/-- The two-child `ASTNode` constructor (`ASTNode(type, child1, child2)`). -/
def mkNode2 (t : NodeType) (c1 c2 : ASTNode) : Except RunError ASTNode := do
  let n ← AddChild (.mk t 0 [] []) c1
  AddChild n c2

/-- The one-child `ASTNode` constructor (`ASTNode(type, child)`). -/
def mkNode1 (t : NodeType) (c : ASTNode) : Except RunError ASTNode :=
  AddChild (.mk t 0 [] []) c

/-! ## Symbol table -/

/-- `SymbolTable::SymbolInfo`: name, current value, declaring line. -/
structure SymbolInfo where
  name : String
  words : List String
  declare_line : Nat
deriving Repr, DecidableEq

/-- One lexical scope: `std::unordered_map<std::string, size_t>` as an
association list (`AddVar` never inserts a duplicate key, so lookup and
`count` agree with the map). -/
def scopeLookup (name : String) : List (String × Nat) → Option Nat
  | [] => none
  | (k, v) :: rest => if k = name then some v else scopeLookup name rest

/-- `SymbolTable`: the flat slot list plus the scope stack.  The HEAD of
`scope_stack` is the innermost scope (`scope_stack.back()` in the source);
`GetVarID` scans from the head outward, mirroring `rbegin()`..`rend()`. -/
structure SymbolTable where
  var_info : List SymbolInfo
  scope_stack : List (List (String × Nat))
deriving Repr, DecidableEq

/-- `SymbolTable::NO_ID = static_cast<size_t>(-1)`. -/
def NO_ID : Nat := 2 ^ 64 - 1

/-- A fresh table: no variables, one (empty) top-level scope. -/
def emptyTable : SymbolTable := ⟨[], [[]]⟩

def SymbolTable.GetNumVars (st : SymbolTable) : Nat := st.var_info.length

def lookupScopes (name : String) : List (List (String × Nat)) → Nat
  | [] => NO_ID
  | sc :: rest =>
    match scopeLookup name sc with
    | some i => i
    | none => lookupScopes name rest

/-- `SymbolTable::GetVarID`: innermost-to-outermost search, `NO_ID` if absent. -/
def SymbolTable.GetVarID (st : SymbolTable) (name : String) : Nat :=
  lookupScopes name st.scope_stack

/-- `SymbolTable::HasVar`. -/
def SymbolTable.HasVar (st : SymbolTable) (name : String) : Bool :=
  st.GetVarID name != NO_ID

/-- `SymbolTable::AddVar`: fatal `Error` on a name already present in the
innermost scope, otherwise allocate the next slot and bind it there.
(`scope_stack.back()` on an empty stack would be undefined behaviour,
modelled as an assertion failure; it is unreachable from `emptyTable`.) -/
def SymbolTable.AddVar (st : SymbolTable) (line_num : Nat) (name : String) :
    Except RunError (Nat × SymbolTable) :=
  match st.scope_stack with
  | [] => .error (.assertFail "AddVar: scope_stack is empty")
  | scope :: rest =>
    if (scopeLookup name scope).isSome then
      .error (.fatal line_num ("Redeclaration of variable '" ++ name ++ "'."))
    else
      let var_id := st.var_info.length
      .ok (var_id,
        { var_info := st.var_info ++ [⟨name, [], line_num⟩],
          scope_stack := ((name, var_id) :: scope) :: rest })

/-- Read of `SymbolTable::VarValue` (its `assert(id < var_info.size())`
is checked at each call site of the evaluator). -/
def SymbolTable.VarValue (st : SymbolTable) (id : Nat) : Option (List String) :=
  (st.var_info.get? id).map SymbolInfo.words

def setInfoWords (ws : List String) (si : SymbolInfo) : SymbolInfo :=
  { si with words := ws }

def updateNth (f : SymbolInfo → SymbolInfo) : Nat → List SymbolInfo → List SymbolInfo
  | _, [] => []
  | 0, si :: rest => f si :: rest
  | n + 1, si :: rest => si :: updateNth f n rest

/-- Write through `SymbolTable::VarValue` (`symbols.VarValue(id) = words`). -/
def SymbolTable.SetVarValue (st : SymbolTable) (id : Nat) (ws : List String) :
    SymbolTable :=
  { st with var_info := updateNth (setInfoWords ws) id st.var_info }

/-- `SymbolTable::IncScope`: push a fresh empty scope. -/
def SymbolTable.IncScope (st : SymbolTable) : SymbolTable :=
  { st with scope_stack := [] :: st.scope_stack }

/-- `SymbolTable::DecScope`: `assert(scope_stack.size() > 1)`, then pop. -/
def SymbolTable.DecScope (st : SymbolTable) : Except RunError SymbolTable :=
  match st.scope_stack with
  | sc1 :: sc2 :: rest =>
    let _ := sc1
    .ok { st with scope_stack := sc2 :: rest }
  | _ => .error (.assertFail "DecScope: scope_stack.size() > 1")

/-! ## Tokens -/

/-- `emplex::Token` (the lexer is an external collaborator; the parser only
reads `id`, `lexeme` and `line_id`). -/
structure Token where
  id : Nat
  lexeme : String
  line_id : Nat
deriving Repr, DecidableEq

def ID_STRING : Nat := 247
def ID_ID : Nat := 248
def ID_PRINT : Nat := 250
def ID_FOREACH : Nat := 251
def ID_FILTER_OUT : Nat := 252
def ID_FILTER : Nat := 253
def ID_LOAD : Nat := 254
def ID_TYPE : Nat := 255

/-- `emplex::Lexer::TokenName` restricted to the ids above. -/
def LexerTokenName (id : Nat) : String :=
  if id = 247 then "STRING"
  else if id = 248 then "ID"
  else if id = 250 then "PRINT"
  else if id = 251 then "FOREACH"
  else if id = 252 then "FILTER_OUT"
  else if id = 253 then "FILTER"
  else if id = 254 then "LOAD"
  else if id = 255 then "TYPE"
  else "_ASCII_"

/-- `WordLang::TokenName`: printable single characters are quoted. -/
def TokenName (id : Nat) : String :=
  if 0 < id ∧ id < 128 then "'" ++ String.mk [Char.ofNat id] ++ "'"
  else LexerTokenName id

/-! ## Parser state and token helpers -/

/-- The parser's mutable state: the token vector, the cursor `token_id`, and
the symbol table (populated during parsing). -/
structure PState where
  tokens : List Token
  token_id : Nat
  symbols : SymbolTable
deriving Repr

/-- `CurToken()`: `tokens[token_id]`; reading past the end of the vector is
undefined behaviour, modelled as an assertion failure. -/
def PState.CurToken (ps : PState) : Except RunError Token :=
  match ps.tokens.get? ps.token_id with
  | some t => .ok t
  | none => .error (.assertFail "CurToken: token_id < tokens.size()")

def PState.advance (ps : PState) : PState :=
  { ps with token_id := ps.token_id + 1 }

/-- `UseToken()`: return the current token and advance. -/
def PState.UseTokenPlain (ps : PState) : Except RunError (Token × PState) := do
  let t ← ps.CurToken
  .ok (t, ps.advance)

/-- `UseToken(required_id, err_message)`: fatal `Error` when the current
token's id differs (the empty message selects the generic wording). -/
def PState.UseTokenReq (ps : PState) (required_id : Nat) (err_message : String) :
    Except RunError (Token × PState) := do
  let cur ← ps.CurToken
  if cur.id ≠ required_id then
    if err_message.length ≠ 0 then
      .error (.fatal cur.line_id err_message)
    else
      .error (.fatal cur.line_id
        ("Expected token type " ++ TokenName required_id ++ ", but found " ++ TokenName cur.id))
  else
    ps.UseTokenPlain

/-- `UseTokenIf(test_id)`: consume and report `true` only on a match. -/
def PState.UseTokenIf (ps : PState) (test_id : Nat) : Except RunError (Bool × PState) := do
  let cur ← ps.CurToken
  if cur.id = test_id then .ok (true, ps.advance) else .ok (false, ps)

/-- `SetValue` on a node (used for the operator of a `MATH_OP`). -/
def ASTNode.SetValue : ASTNode → Nat → ASTNode
  | .mk t _ w cs, v => .mk t v w cs

/-- `WordLang::MakeVarNode(token)`: resolve the identifier eagerly; an
unbound name leaves `GetVarID` at `NO_ID` and fails the
`assert(var_id < symbols.GetNumVars())` — no `Error(...)` diagnostic. -/
def MakeVarNode (ps : PState) (token : Token) : Except RunError ASTNode :=
  let var_id := ps.symbols.GetVarID token.lexeme
  if var_id < ps.symbols.GetNumVars then
    .ok (.mk .VARIABLE var_id [] [])
  else
    .error (.assertFail "MakeVarNode: var_id < symbols.GetNumVars()")

/-! ## Parser

Recursive-descent, one Lean function per `WordLang::Parse…` member; every
recursive call spends one unit of fuel.  Character codes: `'('` 40, `')'` 41,
`'+'` 43, `','` 44, `'-'` 45, `';'` 59, `'='` 61, `'|'` 124, and 123/125 for
the braces. -/

mutual

/-- `WordLang::ParseStatement`.  The `';'` case returns an `EMPTY` node
without consuming the token (exactly as the source does). -/
def ParseStatement : Nat → PState → Except RunError (ASTNode × PState)
  | 0, _ => .error .outOfFuel
  | n + 1, ps => do
    let cur ← ps.CurToken
    if cur.id = ID_PRINT then ParsePrint n ps
    else if cur.id = ID_TYPE then ParseDeclare n ps
    else if cur.id = ID_FOREACH then ParseForeach n ps
    else if cur.id = 123 then ParseStatementBlock n ps
    else if cur.id = 59 then .ok (.mk .EMPTY 0 [] [], ps)
    else ParseExpression n ps

/-- `WordLang::ParsePrint`. -/
def ParsePrint : Nat → PState → Except RunError (ASTNode × PState)
  | 0, _ => .error .outOfFuel
  | n + 1, ps => do
    let (_, ps) ← ps.UseTokenReq ID_PRINT ""
    let (_, ps) ← ps.UseTokenReq 40 ""
    let (print_node, ps) ← ParsePrintArgs n (.mk .PRINT 0 [] []) ps
    let (_, ps) ← ps.UseTokenReq 41 ""
    let (_, ps) ← ps.UseTokenReq 59 ""
    .ok (print_node, ps)

/-- The `do … while (UseTokenIf(','))` argument loop of `ParsePrint`. -/
def ParsePrintArgs : Nat → ASTNode → PState → Except RunError (ASTNode × PState)
  | 0, _, _ => .error .outOfFuel
  | n + 1, print_node, ps => do
    let (arg, ps) ← ParseExpression n ps
    let print_node ← AddChild print_node arg
    let (sep, ps) ← ps.UseTokenIf 44
    if sep then ParsePrintArgs n print_node ps
    else .ok (print_node, ps)

/-- `WordLang::ParseDeclare`.  `AddVar(var_token, …)` converts the token to
`int` via `operator int()`, so the token's id — not its line — reaches the
`line_num` parameter. -/
def ParseDeclare : Nat → PState → Except RunError (ASTNode × PState)
  | 0, _ => .error .outOfFuel
  | n + 1, ps => do
    let (_, ps) ← ps.UseTokenReq ID_TYPE ""
    let (var_token, ps) ← ps.UseTokenReq ID_ID ""
    let (_, symbols) ← ps.symbols.AddVar var_token.id var_token.lexeme
    let ps := { ps with symbols := symbols }
    let (semi, ps) ← ps.UseTokenIf 59
    if semi then .ok (.mk .EMPTY 0 [] [], ps)
    else do
      let (_, ps) ← ps.UseTokenReq 61 "Expected ';' or '='."
      let lhs_node ← MakeVarNode ps var_token
      let (rhs_node, ps) ← ParseExpression n ps
      let (_, ps) ← ps.UseTokenReq 59 ""
      let node ← mkNode2 .ASSIGN lhs_node rhs_node
      .ok (node, ps)

/-- `WordLang::ParseForeach`: a stub returning an `EMPTY` node. -/
def ParseForeach : Nat → PState → Except RunError (ASTNode × PState)
  | 0, _ => .error .outOfFuel
  | _ + 1, ps => .ok (.mk .EMPTY 0 [] [], ps)

/-- `WordLang::ParseStatementBlock`. -/
def ParseStatementBlock : Nat → PState → Except RunError (ASTNode × PState)
  | 0, _ => .error .outOfFuel
  | n + 1, ps => do
    let (_, ps) ← ps.UseTokenReq 123 ""
    let ps := { ps with symbols := ps.symbols.IncScope }
    let (out_node, ps) ← ParseBlockLoop n (.mk .STATEMENT_BLOCK 0 [] []) ps
    let symbols ← ps.symbols.DecScope
    let ps := { ps with symbols := symbols }
    let (_, ps) ← ps.UseTokenReq 125 ""
    .ok (out_node, ps)

/-- The `while (CurToken() != '\x7d')` loop of `ParseStatementBlock`:
`out_node.AddChild(ParseStatement())` with NO filtering of `EMPTY` results. -/
def ParseBlockLoop : Nat → ASTNode → PState → Except RunError (ASTNode × PState)
  | 0, _, _ => .error .outOfFuel
  | n + 1, out_node, ps => do
    let cur ← ps.CurToken
    if cur.id ≠ 125 then do
      let (stmt, ps) ← ParseStatement n ps
      let out_node ← AddChild out_node stmt
      ParseBlockLoop n out_node ps
    else .ok (out_node, ps)

/-- `WordLang::ParseExpression` (the most complete source variant forwards
to the assignment level). -/
def ParseExpression : Nat → PState → Except RunError (ASTNode × PState)
  | 0, _ => .error .outOfFuel
  | n + 1, ps => ParseExpressionAssign n ps

/-- `WordLang::ParseExpressionAssign`: right-associative `'='`. -/
def ParseExpressionAssign : Nat → PState → Except RunError (ASTNode × PState)
  | 0, _ => .error .outOfFuel
  | n + 1, ps => do
    let (lhs, ps) ← ParseExpressionAddSub n ps
    let (eq, ps) ← ps.UseTokenIf 61
    if eq then do
      let (rhs, ps) ← ParseExpressionAssign n ps
      let node ← mkNode2 .ASSIGN lhs rhs
      .ok (node, ps)
    else .ok (lhs, ps)

/-- `WordLang::ParseExpressionAddSub`: left-associative `'+'`/`'-'`. -/
def ParseExpressionAddSub : Nat → PState → Except RunError (ASTNode × PState)
  | 0, _ => .error .outOfFuel
  | n + 1, ps => do
    let (lhs, ps) ← ParseExpressionPipe n ps
    ParseAddSubLoop n lhs ps

/-- The `while (CurToken() == '+' || CurToken() == '-')` loop;
the operator's character code lands in the node's `value`. -/
def ParseAddSubLoop : Nat → ASTNode → PState → Except RunError (ASTNode × PState)
  | 0, _, _ => .error .outOfFuel
  | n + 1, lhs, ps => do
    let cur ← ps.CurToken
    if cur.id = 43 ∨ cur.id = 45 then do
      let (tok, ps) ← ps.UseTokenPlain
      let (rhs, ps) ← ParseExpressionPipe n ps
      let node ← mkNode2 .MATH_OP lhs rhs
      ParseAddSubLoop n (node.SetValue tok.id) ps
    else .ok (lhs, ps)

/-- `WordLang::ParseExpressionPipe`: left-associative `'|' filter(…)`. -/
def ParseExpressionPipe : Nat → PState → Except RunError (ASTNode × PState)
  | 0, _ => .error .outOfFuel
  | n + 1, ps => do
    let (lhs, ps) ← ParseTerm n ps
    ParsePipeLoop n lhs ps

/-- The `while (UseTokenIf('|'))` loop of `ParseExpressionPipe`. -/
def ParsePipeLoop : Nat → ASTNode → PState → Except RunError (ASTNode × PState)
  | 0, _, _ => .error .outOfFuel
  | n + 1, lhs, ps => do
    let (pipe, ps) ← ps.UseTokenIf 124
    if pipe then do
      let (token, ps) ← ps.UseTokenPlain
      let (_, ps) ← ps.UseTokenReq 40 ""
      let (filter_ast, ps) ← ParseExpression n ps
      let (_, ps) ← ps.UseTokenReq 41 ""
      if token.id = ID_FILTER then do
        let node ← mkNode2 .FILTER lhs filter_ast
        ParsePipeLoop n node ps
      else if token.id = ID_FILTER_OUT then do
        let node ← mkNode2 .FILTER_OUT lhs filter_ast
        ParsePipeLoop n node ps
      else
        .error (.fatal token.line_id ("Unexpected symbol " ++ TokenName token.id))
    else .ok (lhs, ps)

/-- `WordLang::ParseTerm`. -/
def ParseTerm : Nat → PState → Except RunError (ASTNode × PState)
  | 0, _ => .error .outOfFuel
  | n + 1, ps => do
    let (token, ps) ← ps.UseTokenPlain
    if token.id = ID_ID then do
      let node ← MakeVarNode ps token
      .ok (node, ps)
    else if token.id = ID_LOAD then do
      let (_, ps) ← ps.UseTokenReq 40 ""
      let (arg_node, ps) ← ParseExpression n ps
      let (_, ps) ← ps.UseTokenReq 41 ""
      let node ← mkNode1 .LOAD arg_node
      .ok (node, ps)
    else if token.id = ID_STRING then
      let w := (token.lexeme.drop 1).take (token.lexeme.length - 2)
      .ok (.mk .LITERAL 0 (setInsert w []) [], ps)
    else if token.id = 40 then do
      let (out_node, ps) ← ParseExpression n ps
      let (_, ps) ← ps.UseTokenReq 41 ""
      .ok (out_node, ps)
    else
      .error (.fatal token.line_id
        ("Expected expression. Found " ++ TokenName token.id ++ "."))

end

/-- `WordLang::Parse`: run `ParseStatement` until the token stream is
exhausted, appending each non-`EMPTY` result to `root`
(`if (cur_node.GetType()) root.AddChild(cur_node);`). -/
def Parse : Nat → ASTNode → PState → Except RunError (ASTNode × PState)
  | 0, _, _ => .error .outOfFuel
  | n + 1, root, ps =>
    if ps.token_id < ps.tokens.length then do
      let (cur_node, ps') ← ParseStatement n ps
      if cur_node.type ≠ NodeType.EMPTY then do
        let root' ← AddChild root cur_node
        Parse n root' ps'
      else
        Parse n root ps'
    else .ok (root, ps)

/-! ## Evaluator (`WordLang::Run`) -/

/-- The evaluator's state: the symbol table (runtime variable storage) plus
the lines written to standard output so far. -/
structure RState where
  symbols : SymbolTable
  output : List String
deriving Repr

mutual

/-- `words_t WordLang::Run(ASTNode &)`: one recursive evaluation function,
with every C++ `assert` modelled as an `assertFail`.  `fs` is the file
system seen by `LOAD` (token list per path, `[]` when unreadable). -/
def Run (fs : String → List String) :
    Nat → ASTNode → RState → Except RunError (List String × RState)
  | 0, _, _ => .error .outOfFuel
  | n + 1, .mk t v w cs, st =>
    match t with
    | .EMPTY => .error (.assertFail "Run: we should not have any empty nodes")
    | .STATEMENT_BLOCK => do
      let st ← RunSeq fs n cs st
      .ok ([], st)
    | .ASSIGN =>
      match cs with
      | [c0, c1] =>
        if c0.type = NodeType.VARIABLE then do
          let (rhs, st) ← Run fs n c1 st
          let var_id := c0.value
          if var_id < st.symbols.var_info.length then
            .ok (rhs, { st with symbols := st.symbols.SetVarValue var_id rhs })
          else .error (.assertFail "VarValue: id < var_info.size()")
        else .error (.assertFail "Run ASSIGN: GetChild(0).GetType() == VARIABLE")
      | _ => .error (.assertFail "Run ASSIGN: GetChildren().size() == 2")
    | .MATH_OP =>
      match cs with
      | [c0, c1] => do
        let (left, st) ← Run fs n c0 st
        let (right, st) ← Run fs n c1 st
        if v = 43 then .ok (mathPlus left right, st)
        else if v = 45 then .ok (mathMinus left right, st)
        else .ok (left, st)
      | _ => .error (.assertFail "Run MATH_OP: GetChildren().size() == 2")
    | .VARIABLE =>
      match cs with
      | [] =>
        match st.symbols.VarValue v with
        | some ws => .ok (ws, st)
        | none => .error (.assertFail "VarValue: id < var_info.size()")
      | _ => .error (.assertFail "Run VARIABLE: GetChildren().size() == 0")
    | .LITERAL =>
      match cs with
      | [] => .ok (w, st)
      | _ => .error (.assertFail "Run LITERAL: GetChildren().size() == 0")
    | .LOAD =>
      match cs with
      | [c0] => do
        let (filenames, st) ← Run fs n c0 st
        .ok (loadRun fs filenames, st)
      | _ => .error (.assertFail "Run LOAD: GetChildren().size() == 1")
    | .PRINT => do
      let st ← RunPrintSeq fs n cs st
      .ok ([], st)
    | .FILTER =>
      match cs with
      | [c0, c1] => do
        let (words, st) ← Run fs n c0 st
        let (filters, st) ← Run fs n c1 st
        .ok (filterRun false words filters, st)
      | _ => .error (.assertFail "Run FILTER: GetChildren().size() == 2")
    | .FILTER_OUT =>
      match cs with
      | [c0, c1] => do
        let (words, st) ← Run fs n c0 st
        let (filters, st) ← Run fs n c1 st
        .ok (filterRun true words filters, st)
      | _ => .error (.assertFail "Run FILTER_OUT: GetChildren().size() == 2")

/-- The `STATEMENT_BLOCK` loop: evaluate every child in order, discarding
each result. -/
def RunSeq (fs : String → List String) :
    Nat → List ASTNode → RState → Except RunError RState
  | 0, _, _ => .error .outOfFuel
  | _ + 1, [], st => .ok st
  | n + 1, c :: cs, st => do
    let (_, st) ← Run fs n c st
    RunSeq fs n cs st

/-- The `PRINT` loop: evaluate each child and write one formatted line per
child to the output. -/
def RunPrintSeq (fs : String → List String) :
    Nat → List ASTNode → RState → Except RunError RState
  | 0, _, _ => .error .outOfFuel
  | _ + 1, [], st => .ok st
  | n + 1, c :: cs, st => do
    let (ws, st) ← Run fs n c st
    RunPrintSeq fs n cs { st with output := st.output ++ [printWords ws] }

end

/-! ## Generic inversion helpers -/

theorem except_bind_ok {α β : Type} {x : Except RunError α} {f : α → Except RunError β}
    {b : β} : (x >>= f) = .ok b ↔ ∃ a, x = .ok a ∧ f a = .ok b := by
  cases x with
  | error e =>
    constructor
    · intro h; exact absurd h (by simp [Bind.bind, Except.bind])
    · rintro ⟨a, ha, _⟩; exact absurd ha (by simp)
  | ok a =>
    constructor
    · intro h; exact ⟨a, rfl, h⟩
    · rintro ⟨a', ha, hf⟩
      rw [show a' = a from by simpa using ha.symm] at hf
      simpa [Bind.bind, Except.bind] using hf

/-! ## Well-formedness: every `words_t` in play is strictly ascending -/

mutual

/-- Every `LITERAL` payload inside the node is a valid sorted-set value. -/
def WFNode : ASTNode → Prop
  | .mk _ _ ws cs => List.Sorted (· < ·) ws ∧ WFNodeList cs

def WFNodeList : List ASTNode → Prop
  | [] => True
  | c :: cs => WFNode c ∧ WFNodeList cs

end

/-- Every stored slot value is a valid sorted-set value. -/
def WFTable (tbl : SymbolTable) : Prop :=
  ∀ si ∈ tbl.var_info, List.Sorted (· < ·) si.words

theorem updateNth_mem {f : SymbolInfo → SymbolInfo} {i : Nat} {l : List SymbolInfo}
    {a : SymbolInfo} (h : a ∈ updateNth f i l) : a ∈ l ∨ ∃ b ∈ l, a = f b := by
  induction l generalizing i with
  | nil => simp [updateNth] at h
  | cons x xs ih =>
    cases i with
    | zero =>
      rw [updateNth] at h
      rcases List.mem_cons.mp h with rfl | h
      · exact Or.inr ⟨x, List.mem_cons_self x xs, rfl⟩
      · exact Or.inl (List.mem_cons_of_mem x h)
    | succ i =>
      rw [updateNth] at h
      rcases List.mem_cons.mp h with rfl | h
      · exact Or.inl (List.mem_cons_self a xs)
      · rcases ih h with h | ⟨b, hb, rfl⟩
        · exact Or.inl (List.mem_cons_of_mem x h)
        · exact Or.inr ⟨b, List.mem_cons_of_mem x hb, rfl⟩

theorem WFTable_SetVarValue {tbl : SymbolTable} {id : Nat} {ws : List String}
    (h : WFTable tbl) (hws : List.Sorted (· < ·) ws) :
    WFTable (tbl.SetVarValue id ws) := by
  intro si hsi
  rcases updateNth_mem hsi with hmem | ⟨b, _, rfl⟩
  · exact h si hmem
  · exact hws

theorem WFTable_VarValue {tbl : SymbolTable} {id : Nat} {ws : List String}
    (h : WFTable tbl) (hv : tbl.VarValue id = some ws) :
    List.Sorted (· < ·) ws := by
  rw [SymbolTable.VarValue] at hv
  rcases Option.map_eq_some'.mp hv with ⟨si, hget, rfl⟩
  exact h si (List.get?_mem hget)

/-! ## Node-shape predicates -/

/-- Node kinds an expression can consist of. -/
def isExprKind : NodeType → Bool
  | .ASSIGN | .MATH_OP | .VARIABLE | .LITERAL | .LOAD | .FILTER | .FILTER_OUT => true
  | _ => false

/-- Expression kinds other than `ASSIGN`. -/
def isPureExprKind : NodeType → Bool
  | .MATH_OP | .VARIABLE | .LITERAL | .LOAD | .FILTER | .FILTER_OUT => true
  | _ => false

mutual

/-- The node is an expression tree (no statements inside). -/
def ExprNode : ASTNode → Bool
  | .mk t _ _ cs => isExprKind t && ExprNodeList cs

def ExprNodeList : List ASTNode → Bool
  | [] => true
  | c :: cs => ExprNode c && ExprNodeList cs

end

mutual

/-- The node is an expression tree containing no `ASSIGN` node. -/
def NoAssignNode : ASTNode → Bool
  | .mk t _ _ cs => isPureExprKind t && NoAssignList cs

def NoAssignList : List ASTNode → Bool
  | [] => true
  | c :: cs => NoAssignNode c && NoAssignList cs

end

/-- Evaluating an assignment-free expression leaves the whole evaluator state
(symbol-table slots and output) untouched. -/
theorem Run_noassign_frame (fs : String → List String) :
    ∀ n : Nat, ∀ node st r st', NoAssignNode node = true →
      Run fs n node st = .ok (r, st') → st' = st := by
  intro n
  induction n with
  | zero =>
    intro node st r st' _ h
    simp [Run] at h
  | succ n ih =>
    rintro ⟨t, v, w, cs⟩ st r st' hna h
    rw [NoAssignNode, Bool.and_eq_true] at hna
    obtain ⟨ht, hcs⟩ := hna
    cases t <;> simp only [isPureExprKind, Bool.false_eq_true] at ht
    case MATH_OP =>
      rcases cs with _ | ⟨c0, _ | ⟨c1, _ | ⟨c2, cs⟩⟩⟩ <;>
        simp only [Run] at h <;> try exact absurd h (by simp)
      rw [NoAssignList, Bool.and_eq_true] at hcs
      obtain ⟨hc0, hcs⟩ := hcs
      rw [NoAssignList, Bool.and_eq_true] at hcs
      obtain ⟨hc1, _⟩ := hcs
      rw [except_bind_ok] at h
      obtain ⟨⟨left, st1⟩, h1, h⟩ := h
      rw [except_bind_ok] at h
      obtain ⟨⟨right, st2⟩, h2, h⟩ := h
      have e1 : st1 = st := ih _ _ _ _ hc0 h1
      have e2 : st2 = st1 := ih _ _ _ _ hc1 h2
      subst e1; subst e2
      split at h <;> [skip; split at h] <;>
        { injection h with h'; injection h' with _ h2'; exact h2'.symm }
    case VARIABLE =>
      rcases cs with _ | ⟨c0, cs⟩ <;> simp only [Run] at h
      · split at h
        · injection h with h'; injection h' with _ h2'; exact h2'.symm
        · exact absurd h (by simp)
      · exact absurd h (by simp)
    case LITERAL =>
      rcases cs with _ | ⟨c0, cs⟩ <;> simp only [Run] at h
      · injection h with h'; injection h' with _ h2'; exact h2'.symm
      · exact absurd h (by simp)
    case LOAD =>
      rcases cs with _ | ⟨c0, _ | ⟨c1, cs⟩⟩ <;>
        simp only [Run] at h <;> try exact absurd h (by simp)
      rw [NoAssignList, Bool.and_eq_true] at hcs
      obtain ⟨hc0, _⟩ := hcs
      rw [except_bind_ok] at h
      obtain ⟨⟨filenames, st1⟩, h1, h⟩ := h
      have e1 : st1 = st := ih _ _ _ _ hc0 h1
      subst e1
      injection h with h'; injection h' with _ h2'; exact h2'.symm
    case FILTER =>
      rcases cs with _ | ⟨c0, _ | ⟨c1, _ | ⟨c2, cs⟩⟩⟩ <;>
        simp only [Run] at h <;> try exact absurd h (by simp)
      rw [NoAssignList, Bool.and_eq_true] at hcs
      obtain ⟨hc0, hcs⟩ := hcs
      rw [NoAssignList, Bool.and_eq_true] at hcs
      obtain ⟨hc1, _⟩ := hcs
      rw [except_bind_ok] at h
      obtain ⟨⟨words, st1⟩, h1, h⟩ := h
      rw [except_bind_ok] at h
      obtain ⟨⟨filters, st2⟩, h2, h⟩ := h
      have e1 : st1 = st := ih _ _ _ _ hc0 h1
      have e2 : st2 = st1 := ih _ _ _ _ hc1 h2
      subst e1; subst e2
      injection h with h'; injection h' with _ h2'; exact h2'.symm
    case FILTER_OUT =>
      rcases cs with _ | ⟨c0, _ | ⟨c1, _ | ⟨c2, cs⟩⟩⟩ <;>
        simp only [Run] at h <;> try exact absurd h (by simp)
      rw [NoAssignList, Bool.and_eq_true] at hcs
      obtain ⟨hc0, hcs⟩ := hcs
      rw [NoAssignList, Bool.and_eq_true] at hcs
      obtain ⟨hc1, _⟩ := hcs
      rw [except_bind_ok] at h
      obtain ⟨⟨words, st1⟩, h1, h⟩ := h
      rw [except_bind_ok] at h
      obtain ⟨⟨filters, st2⟩, h2, h⟩ := h
      have e1 : st1 = st := ih _ _ _ _ hc0 h1
      have e2 : st2 = st1 := ih _ _ _ _ hc1 h2
      subst e1; subst e2
      injection h with h'; injection h' with _ h2'; exact h2'.symm

/-- Joint well-formedness preservation: every value the evaluator produces is
a strictly ascending list, and every slot write keeps the table well formed. -/
theorem Run_WF (fs : String → List String) :
    ∀ n : Nat,
      (∀ node st r st', WFNode node → WFTable st.symbols →
        Run fs n node st = .ok (r, st') →
        List.Sorted (· < ·) r ∧ WFTable st'.symbols) ∧
      (∀ cs st st', WFNodeList cs → WFTable st.symbols →
        RunSeq fs n cs st = .ok st' → WFTable st'.symbols) ∧
      (∀ cs st st', WFNodeList cs → WFTable st.symbols →
        RunPrintSeq fs n cs st = .ok st' → WFTable st'.symbols) := by
  intro n
  induction n with
  | zero =>
    refine ⟨?_, ?_, ?_⟩
    · intro node st r st' _ _ h; simp [Run] at h
    · intro cs st st' _ _ h; simp [RunSeq] at h
    · intro cs st st' _ _ h; simp [RunPrintSeq] at h
  | succ n ih =>
    obtain ⟨ihRun, ihSeq, ihPrint⟩ := ih
    refine ⟨?_, ?_, ?_⟩
    · rintro ⟨t, v, w, cs⟩ st r st' hwf htbl h
      rw [WFNode] at hwf
      obtain ⟨hw, hcs⟩ := hwf
      cases t
      case EMPTY => simp [Run] at h
      case STATEMENT_BLOCK =>
        simp only [Run] at h
        rw [except_bind_ok] at h
        obtain ⟨st1, h1, h⟩ := h
        injection h with h'
        injection h' with hr hst
        subst hr; subst hst
        exact ⟨List.sorted_nil, ihSeq _ _ _ hcs htbl h1⟩
      case ASSIGN =>
        rcases cs with _ | ⟨c0, _ | ⟨c1, _ | ⟨c2, cs⟩⟩⟩ <;>
          simp only [Run] at h <;> try exact absurd h (by simp)
        rw [WFNodeList] at hcs
        obtain ⟨hc0, hcs⟩ := hcs
        rw [WFNodeList] at hcs
        obtain ⟨hc1, -⟩ := hcs
        split at h
        · rw [except_bind_ok] at h
          obtain ⟨⟨rhs, st1⟩, h1, h⟩ := h
          obtain ⟨hsr, htbl1⟩ := ihRun _ _ _ _ hc1 htbl h1
          split at h
          · injection h with h'
            injection h' with hr hst
            subst hr; subst hst
            exact ⟨hsr, WFTable_SetVarValue htbl1 hsr⟩
          · exact absurd h (by simp)
        · exact absurd h (by simp)
      case MATH_OP =>
        rcases cs with _ | ⟨c0, _ | ⟨c1, _ | ⟨c2, cs⟩⟩⟩ <;>
          simp only [Run] at h <;> try exact absurd h (by simp)
        rw [WFNodeList] at hcs
        obtain ⟨hc0, hcs⟩ := hcs
        rw [WFNodeList] at hcs
        obtain ⟨hc1, -⟩ := hcs
        rw [except_bind_ok] at h
        obtain ⟨⟨left, st1⟩, h1, h⟩ := h
        rw [except_bind_ok] at h
        obtain ⟨⟨right, st2⟩, h2, h⟩ := h
        obtain ⟨hsl, htbl1⟩ := ihRun _ _ _ _ hc0 htbl h1
        obtain ⟨hsrr, htbl2⟩ := ihRun _ _ _ _ hc1 htbl1 h2
        split at h
        · injection h with h'
          injection h' with hr hst
          subst hr; subst hst
          exact ⟨mathPlus_sorted _ _ hsl, htbl2⟩
        · split at h
          · injection h with h'
            injection h' with hr hst
            subst hr; subst hst
            exact ⟨mathMinus_sorted _ _ hsl, htbl2⟩
          · injection h with h'
            injection h' with hr hst
            subst hr; subst hst
            exact ⟨hsl, htbl2⟩
      case VARIABLE =>
        rcases cs with _ | ⟨c0, cs⟩ <;> simp only [Run] at h
        · split at h
          case h_1 ws hws =>
            injection h with h'
            injection h' with hr hst
            subst hr; subst hst
            exact ⟨WFTable_VarValue htbl (by simpa [SymbolTable.VarValue] using hws), htbl⟩
          case h_2 => exact absurd h (by simp)
        · exact absurd h (by simp)
      case LITERAL =>
        rcases cs with _ | ⟨c0, cs⟩ <;> simp only [Run] at h
        · injection h with h'
          injection h' with hr hst
          subst hr; subst hst
          exact ⟨hw, htbl⟩
        · exact absurd h (by simp)
      case LOAD =>
        rcases cs with _ | ⟨c0, _ | ⟨c1, cs⟩⟩ <;>
          simp only [Run] at h <;> try exact absurd h (by simp)
        rw [WFNodeList] at hcs
        obtain ⟨hc0, -⟩ := hcs
        rw [except_bind_ok] at h
        obtain ⟨⟨filenames, st1⟩, h1, h⟩ := h
        obtain ⟨-, htbl1⟩ := ihRun _ _ _ _ hc0 htbl h1
        injection h with h'
        injection h' with hr hst
        subst hr; subst hst
        exact ⟨loadRun_sorted fs filenames, htbl1⟩
      case PRINT =>
        simp only [Run] at h
        rw [except_bind_ok] at h
        obtain ⟨st1, h1, h⟩ := h
        injection h with h'
        injection h' with hr hst
        subst hr; subst hst
        exact ⟨List.sorted_nil, ihPrint _ _ _ hcs htbl h1⟩
      case FILTER =>
        rcases cs with _ | ⟨c0, _ | ⟨c1, _ | ⟨c2, cs⟩⟩⟩ <;>
          simp only [Run] at h <;> try exact absurd h (by simp)
        rw [WFNodeList] at hcs
        obtain ⟨hc0, hcs⟩ := hcs
        rw [WFNodeList] at hcs
        obtain ⟨hc1, -⟩ := hcs
        rw [except_bind_ok] at h
        obtain ⟨⟨words, st1⟩, h1, h⟩ := h
        rw [except_bind_ok] at h
        obtain ⟨⟨filters, st2⟩, h2, h⟩ := h
        obtain ⟨-, htbl1⟩ := ihRun _ _ _ _ hc0 htbl h1
        obtain ⟨-, htbl2⟩ := ihRun _ _ _ _ hc1 htbl1 h2
        injection h with h'
        injection h' with hr hst
        subst hr; subst hst
        exact ⟨filterRun_sorted _ _ _, htbl2⟩
      case FILTER_OUT =>
        rcases cs with _ | ⟨c0, _ | ⟨c1, _ | ⟨c2, cs⟩⟩⟩ <;>
          simp only [Run] at h <;> try exact absurd h (by simp)
        rw [WFNodeList] at hcs
        obtain ⟨hc0, hcs⟩ := hcs
        rw [WFNodeList] at hcs
        obtain ⟨hc1, -⟩ := hcs
        rw [except_bind_ok] at h
        obtain ⟨⟨words, st1⟩, h1, h⟩ := h
        rw [except_bind_ok] at h
        obtain ⟨⟨filters, st2⟩, h2, h⟩ := h
        obtain ⟨-, htbl1⟩ := ihRun _ _ _ _ hc0 htbl h1
        obtain ⟨-, htbl2⟩ := ihRun _ _ _ _ hc1 htbl1 h2
        injection h with h'
        injection h' with hr hst
        subst hr; subst hst
        exact ⟨filterRun_sorted _ _ _, htbl2⟩
    · intro cs st st' hcs htbl h
      cases cs with
      | nil =>
        simp only [RunSeq] at h
        injection h with h'
        subst h'
        exact htbl
      | cons c cs =>
        rw [WFNodeList] at hcs
        obtain ⟨hc, hcs⟩ := hcs
        simp only [RunSeq] at h
        rw [except_bind_ok] at h
        obtain ⟨⟨r1, st1⟩, h1, h⟩ := h
        obtain ⟨-, htbl1⟩ := ihRun _ _ _ _ hc htbl h1
        exact ihSeq _ _ _ hcs htbl1 h
    · intro cs st st' hcs htbl h
      cases cs with
      | nil =>
        simp only [RunPrintSeq] at h
        injection h with h'
        subst h'
        exact htbl
      | cons c cs =>
        rw [WFNodeList] at hcs
        obtain ⟨hc, hcs⟩ := hcs
        simp only [RunPrintSeq] at h
        rw [except_bind_ok] at h
        obtain ⟨⟨r1, st1⟩, h1, h⟩ := h
        obtain ⟨-, htbl1⟩ := ihRun _ _ _ _ hc htbl h1
        exact ihPrint cs { symbols := st1.symbols, output := st1.output ++ [printWords r1] }
          st' hcs htbl1 (by simpa using h)

/-- Evaluating any expression (assignments included) writes nothing to the
output: only `PRINT` statements produce lines. -/
theorem Run_expr_output (fs : String → List String) :
    ∀ n : Nat, ∀ node st r st', ExprNode node = true →
      Run fs n node st = .ok (r, st') → st'.output = st.output := by
  intro n
  induction n with
  | zero =>
    intro node st r st' _ h
    simp [Run] at h
  | succ n ih =>
    rintro ⟨t, v, w, cs⟩ st r st' hna h
    rw [ExprNode, Bool.and_eq_true] at hna
    obtain ⟨ht, hcs⟩ := hna
    cases t <;> simp only [isExprKind, Bool.false_eq_true] at ht
    case ASSIGN =>
      rcases cs with _ | ⟨c0, _ | ⟨c1, _ | ⟨c2, cs⟩⟩⟩ <;>
        simp only [Run] at h <;> try exact absurd h (by simp)
      rw [ExprNodeList, Bool.and_eq_true] at hcs
      obtain ⟨hc0, hcs⟩ := hcs
      rw [ExprNodeList, Bool.and_eq_true] at hcs
      obtain ⟨hc1, -⟩ := hcs
      split at h
      · rw [except_bind_ok] at h
        obtain ⟨⟨rhs, st1⟩, h1, h⟩ := h
        have e1 := ih _ _ _ _ hc1 h1
        split at h
        · injection h with h'
          injection h' with hr hst
          subst hst
          exact e1
        · exact absurd h (by simp)
      · exact absurd h (by simp)
    case MATH_OP =>
      rcases cs with _ | ⟨c0, _ | ⟨c1, _ | ⟨c2, cs⟩⟩⟩ <;>
        simp only [Run] at h <;> try exact absurd h (by simp)
      rw [ExprNodeList, Bool.and_eq_true] at hcs
      obtain ⟨hc0, hcs⟩ := hcs
      rw [ExprNodeList, Bool.and_eq_true] at hcs
      obtain ⟨hc1, -⟩ := hcs
      rw [except_bind_ok] at h
      obtain ⟨⟨left, st1⟩, h1, h⟩ := h
      rw [except_bind_ok] at h
      obtain ⟨⟨right, st2⟩, h2, h⟩ := h
      have e1 := ih _ _ _ _ hc0 h1
      have e2 := ih _ _ _ _ hc1 h2
      split at h <;> [skip; split at h] <;>
        { injection h with h'; injection h' with _ hst; subst hst
          exact e2.trans e1 }
    case VARIABLE =>
      rcases cs with _ | ⟨c0, cs⟩ <;> simp only [Run] at h
      · split at h
        · injection h with h'; injection h' with _ hst; subst hst; rfl
        · exact absurd h (by simp)
      · exact absurd h (by simp)
    case LITERAL =>
      rcases cs with _ | ⟨c0, cs⟩ <;> simp only [Run] at h
      · injection h with h'; injection h' with _ hst; subst hst; rfl
      · exact absurd h (by simp)
    case LOAD =>
      rcases cs with _ | ⟨c0, _ | ⟨c1, cs⟩⟩ <;>
        simp only [Run] at h <;> try exact absurd h (by simp)
      rw [ExprNodeList, Bool.and_eq_true] at hcs
      obtain ⟨hc0, -⟩ := hcs
      rw [except_bind_ok] at h
      obtain ⟨⟨filenames, st1⟩, h1, h⟩ := h
      have e1 := ih _ _ _ _ hc0 h1
      injection h with h'
      injection h' with _ hst
      subst hst
      exact e1
    case FILTER =>
      rcases cs with _ | ⟨c0, _ | ⟨c1, _ | ⟨c2, cs⟩⟩⟩ <;>
        simp only [Run] at h <;> try exact absurd h (by simp)
      rw [ExprNodeList, Bool.and_eq_true] at hcs
      obtain ⟨hc0, hcs⟩ := hcs
      rw [ExprNodeList, Bool.and_eq_true] at hcs
      obtain ⟨hc1, -⟩ := hcs
      rw [except_bind_ok] at h
      obtain ⟨⟨words, st1⟩, h1, h⟩ := h
      rw [except_bind_ok] at h
      obtain ⟨⟨filters, st2⟩, h2, h⟩ := h
      have e1 := ih _ _ _ _ hc0 h1
      have e2 := ih _ _ _ _ hc1 h2
      injection h with h'
      injection h' with _ hst
      subst hst
      exact e2.trans e1
    case FILTER_OUT =>
      rcases cs with _ | ⟨c0, _ | ⟨c1, _ | ⟨c2, cs⟩⟩⟩ <;>
        simp only [Run] at h <;> try exact absurd h (by simp)
      rw [ExprNodeList, Bool.and_eq_true] at hcs
      obtain ⟨hc0, hcs⟩ := hcs
      rw [ExprNodeList, Bool.and_eq_true] at hcs
      obtain ⟨hc1, -⟩ := hcs
      rw [except_bind_ok] at h
      obtain ⟨⟨words, st1⟩, h1, h⟩ := h
      rw [except_bind_ok] at h
      obtain ⟨⟨filters, st2⟩, h2, h⟩ := h
      have e1 := ih _ _ _ _ hc0 h1
      have e2 := ih _ _ _ _ hc1 h2
      injection h with h'
      injection h' with _ hst
      subst hst
      exact e2.trans e1

/-- The `PRINT` loop writes exactly one line per child, in order, each line
formatted by `printWords` from that child's evaluated set; under the
well-formedness invariant every printed set is strictly ascending. -/
theorem RunPrintSeq_lines (fs : String → List String) :
    ∀ n : Nat, ∀ cs st st', ExprNodeList cs = true →
      RunPrintSeq fs n cs st = .ok st' →
      ∃ ws : List (List String), ws.length = cs.length ∧
        st'.output = st.output ++ ws.map printWords ∧
        (WFNodeList cs → WFTable st.symbols → ∀ w ∈ ws, List.Sorted (· < ·) w) := by
  intro n
  induction n with
  | zero =>
    intro cs st st' _ h
    simp [RunPrintSeq] at h
  | succ n ih =>
    intro cs st st' hex h
    cases cs with
    | nil =>
      simp only [RunPrintSeq] at h
      injection h with h'
      subst h'
      refine ⟨[], rfl, by simp, ?_⟩
      intro _ _ w hw
      simp at hw
    | cons c cs =>
      rw [ExprNodeList, Bool.and_eq_true] at hex
      obtain ⟨hc, hcs⟩ := hex
      simp only [RunPrintSeq] at h
      rw [except_bind_ok] at h
      obtain ⟨⟨w0, st1⟩, h1, h⟩ := h
      obtain ⟨ws, hlen, hout, hsorted⟩ :=
        ih cs { symbols := st1.symbols, output := st1.output ++ [printWords w0] } st'
          hcs (by simpa using h)
      refine ⟨w0 :: ws, by simp [hlen], ?_, ?_⟩
      · have e1 : st1.output = st.output := Run_expr_output fs n c st w0 st1 hc h1
        rw [hout]
        simp [e1]
      · intro hwf htbl w hw
        rw [WFNodeList] at hwf
        rcases List.mem_cons.mp hw with rfl | hw
        · exact ((Run_WF fs n).1 c st w st1 hwf.1 htbl h1).1
        · have htbl1 : WFTable st1.symbols := ((Run_WF fs n).1 c st w0 st1 hwf.1 htbl h1).2
          exact hsorted hwf.2 htbl1 w hw

/-- Executable strict-ascending check (via `toList`, which reduces in the
kernel, unlike `String.ltb`). -/
def sortedB : List String → Bool
  | [] => true
  | [_] => true
  | x :: y :: rest => decide (x.toList < y.toList) && sortedB (y :: rest)

theorem sortedB_sorted : ∀ l : List String, sortedB l = true → List.Sorted (· < ·) l := by
  intro l h
  rw [List.Sorted, ← List.chain'_iff_pairwise]
  induction l with
  | nil => simp
  | cons x xs ih =>
    cases xs with
    | nil => simp
    | cons y ys =>
      rw [sortedB, Bool.and_eq_true, decide_eq_true_iff] at h
      exact List.Chain'.cons (String.lt_iff_toList_lt.mpr h.1) (ih h.2)

/-! ## Concrete node builders and inputs used by the claims -/

/-- A `LITERAL` node holding `ws`. -/
def litNode (ws : List String) : ASTNode := .mk .LITERAL 0 ws []

/-- A `MATH_OP` node; `op` is the operator's character code (43 `'+'`, 45 `'-'`). -/
def mathNode (op : Nat) (c0 c1 : ASTNode) : ASTNode := .mk .MATH_OP op [] [c0, c1]

/-- A `FILTER` node (candidates left, patterns right). -/
def filterNode (c0 c1 : ASTNode) : ASTNode := .mk .FILTER 0 [] [c0, c1]

/-- A `FILTER_OUT` node. -/
def filterOutNode (c0 c1 : ASTNode) : ASTNode := .mk .FILTER_OUT 0 [] [c0, c1]

/-- Token stream of the program `a;` where `a` was never declared. -/
def c1Tokens : List Token := [⟨ID_ID, "a", 1⟩, ⟨59, ";", 1⟩]

/-- Token stream of the program `{ ; }`. -/
def c2Tokens : List Token := [⟨123, "\x7b", 1⟩, ⟨59, ";", 1⟩, ⟨125, "\x7d", 1⟩]

/-- **C1.**  Claim: using an identifier without a prior visible declaration
fails with a fatal `UnboundNameError`, i.e. a line-tagged `ERROR (line N): …`
diagnostic on the error stream.  On the code this is FALSE: `MakeVarNode`
checks the unbound name only with `assert(var_id < symbols.GetNumVars())`
(`GetVarID` returned `NO_ID`), so the run aborts through the assert — no
`Error(...)` call, hence no line-tagged diagnostic (and no check at all if
`NDEBUG` disables asserts).  Parsing the program `a;` in an empty scope ends
in the assertion failure, not in any `fatal` diagnostic. -/
theorem C1_unbound_name_asserts_without_diagnostic :
    ParseStatement 20 ⟨c1Tokens, 0, emptyTable⟩ =
      .error (.assertFail "MakeVarNode: var_id < symbols.GetNumVars()") ∧
    ∀ line msg, ParseStatement 20 ⟨c1Tokens, 0, emptyTable⟩ ≠ .error (.fatal line msg) := by
  constructor
  · rfl
  · intro line msg h
    rw [show ParseStatement 20 ⟨c1Tokens, 0, emptyTable⟩ =
          .error (.assertFail "MakeVarNode: var_id < symbols.GetNumVars()") from rfl] at h
    injection h with h'
    cases h'

/-- **C2.**  Claim: `Empty` statement results are filtered out both at top
level and when building a `{ … }` statement block, so `AddChild` is never
invoked with an `Empty` node.  On the code this is FALSE for blocks:
`ParseStatementBlock` runs `out_node.AddChild(ParseStatement())` with no
filter, so the bare `;` inside `{ ; }` produces an `EMPTY` node that is
passed straight to `AddChild`, whose own
`assert(child.GetType() != EMPTY)` fails. -/
theorem C2_block_passes_empty_to_AddChild :
    ParseStatement 20 ⟨c2Tokens, 0, emptyTable⟩ =
      .error (.assertFail "AddChild: child.GetType() != EMPTY") := rfl

/-- **C3.**  Evaluating the `MATH_OP` `A + B` yields exactly the union of the
two word sets and `A - B` exactly the difference, membership-wise, while the
evaluator state is untouched. -/
theorem C3_mathop_union_difference (fs : String → List String) (A B : List String)
    (st : RState) (hA : List.Sorted (· < ·) A) (hB : List.Sorted (· < ·) B) :
    ∃ P M : List String,
      Run fs 2 (mathNode 43 (litNode A) (litNode B)) st = .ok (P, st) ∧
      Run fs 2 (mathNode 45 (litNode A) (litNode B)) st = .ok (M, st) ∧
      (∀ w, w ∈ P ↔ (w ∈ A ∨ w ∈ B)) ∧
      (∀ w, w ∈ M ↔ (w ∈ A ∧ w ∉ B)) := by
  refine ⟨mathPlus A B, mathMinus A B, rfl, rfl, ?_, ?_⟩
  · intro w
    exact mathPlus_mem w A B
  · intro w
    exact mathMinus_mem w A B hA.nodup

/-- Witness for C3 at `A = {"a","b"}`, `B = {"b","c"}`. -/
theorem C3_witness :
    List.Sorted (· < ·) ["a", "b"] ∧ List.Sorted (· < ·) ["b", "c"] ∧
    (∃ P M : List String,
      Run (fun _ => []) 2 (mathNode 43 (litNode ["a", "b"]) (litNode ["b", "c"]))
          ⟨emptyTable, []⟩ = .ok (P, ⟨emptyTable, []⟩) ∧
      Run (fun _ => []) 2 (mathNode 45 (litNode ["a", "b"]) (litNode ["b", "c"]))
          ⟨emptyTable, []⟩ = .ok (M, ⟨emptyTable, []⟩) ∧
      (∀ w, w ∈ P ↔ (w ∈ ["a", "b"] ∨ w ∈ ["b", "c"])) ∧
      (∀ w, w ∈ M ↔ (w ∈ ["a", "b"] ∧ w ∉ ["b", "c"]))) :=
  ⟨sortedB_sorted _ (by decide), sortedB_sorted _ (by decide),
    C3_mathop_union_difference (fun _ => []) ["a", "b"] ["b", "c"] ⟨emptyTable, []⟩
      (sortedB_sorted _ (by decide)) (sortedB_sorted _ (by decide))⟩

/-- **C4.**  `Filter` keeps exactly the candidates containing at least one
pattern as a substring, `FilterOut` exactly the others, so for a fixed
candidate set the two results partition it: every candidate lands in exactly
one of the two. -/
theorem C4_filter_filterout_partition (fs : String → List String)
    (S P : List String) (st : RState) :
    ∃ F FO : List String,
      Run fs 2 (filterNode (litNode S) (litNode P)) st = .ok (F, st) ∧
      Run fs 2 (filterOutNode (litNode S) (litNode P)) st = .ok (FO, st) ∧
      (∀ w, w ∈ F ↔ w ∈ S ∧ matchesAny w P = true) ∧
      (∀ w, w ∈ FO ↔ w ∈ S ∧ matchesAny w P = false) ∧
      (∀ w ∈ S, (w ∈ F ∧ w ∉ FO) ∨ (w ∈ FO ∧ w ∉ F)) ∧
      (∀ w, matchesAny w P = true ↔
        ∃ p ∈ P, ∃ pre post, w.toList = pre ++ p.toList ++ post) := by
  refine ⟨filterRun false S P, filterRun true S P, rfl, rfl, ?_, ?_, ?_, ?_⟩
  · intro w
    rw [filterRun_mem]
    simp
  · intro w
    rw [filterRun_mem]
    simp
  · intro w hw
    by_cases hm : matchesAny w P = true
    · exact Or.inl ⟨(filterRun_mem w false S P).mpr ⟨hw, by simp [hm]⟩,
        fun hmem => by
          have := (filterRun_mem w true S P).mp hmem
          simp [hm] at this⟩
    · refine Or.inr ⟨(filterRun_mem w true S P).mpr ⟨hw, by simp_all⟩, fun hmem => ?_⟩
      have := (filterRun_mem w false S P).mp hmem
      simp_all
  · intro w
    rw [matchesAny, List.any_eq_true]
    constructor
    · rintro ⟨p, hp, hhit⟩
      exact ⟨p, hp, (strFindHit_iff p.toList w.toList).mp hhit⟩
    · rintro ⟨p, hp, pre, post, hsplit⟩
      exact ⟨p, hp, (strFindHit_iff p.toList w.toList).mpr ⟨pre, post, hsplit⟩⟩

/-- Witness for C4 at `S = {"apple","pear"}`, `P = {"pp"}`. -/
theorem C4_witness :
    ∃ F FO : List String,
      Run (fun _ => []) 2 (filterNode (litNode ["apple", "pear"]) (litNode ["pp"]))
          ⟨emptyTable, []⟩ = .ok (F, ⟨emptyTable, []⟩) ∧
      Run (fun _ => []) 2 (filterOutNode (litNode ["apple", "pear"]) (litNode ["pp"]))
          ⟨emptyTable, []⟩ = .ok (FO, ⟨emptyTable, []⟩) ∧
      (∀ w, w ∈ F ↔ w ∈ ["apple", "pear"] ∧ matchesAny w ["pp"] = true) ∧
      (∀ w, w ∈ FO ↔ w ∈ ["apple", "pear"] ∧ matchesAny w ["pp"] = false) ∧
      (∀ w ∈ ["apple", "pear"], (w ∈ F ∧ w ∉ FO) ∨ (w ∈ FO ∧ w ∉ F)) ∧
      (∀ w, matchesAny w ["pp"] = true ↔
        ∃ p ∈ ["pp"], ∃ pre post, w.toList = pre ++ p.toList ++ post) :=
  C4_filter_filterout_partition (fun _ => []) ["apple", "pear"] ["pp"] ⟨emptyTable, []⟩

/-- Token stream of the expression statement `a = b = "x";`. -/
def c5Tokens : List Token :=
  [⟨ID_ID, "a", 1⟩, ⟨61, "=", 1⟩, ⟨ID_ID, "b", 1⟩, ⟨61, "=", 1⟩,
   ⟨ID_STRING, "\"x\"", 1⟩, ⟨59, ";", 1⟩]

/-- Symbol table after `List a; List b;`: slot 0 holds `w0` for `a`, slot 1
holds `w1` for `b`. -/
def c5Table (w0 w1 : List String) : SymbolTable :=
  ⟨[⟨"a", w0, 1⟩, ⟨"b", w1, 1⟩], [[("b", 1), ("a", 0)]]⟩

/-- The right-nested AST `Assign(Variable(0), Assign(Variable(1), Literal{"x"}))`. -/
def c5Ast : ASTNode :=
  .mk .ASSIGN 0 []
    [.mk .VARIABLE 0 [] [],
     .mk .ASSIGN 0 [] [.mk .VARIABLE 1 [] [], .mk .LITERAL 0 ["x"] []]]

/-- **C5.**  Assignment is right-associative and yields the stored value: the
expression parser turns `a = b = "x"` into
`Assign(Variable(a), Assign(Variable(b), Literal{"x"}))` (stopping at the
`';'`), and evaluating that node stores `{"x"}` in `b`'s slot, then in `a`'s
slot, and returns the newly stored set — whatever the two slots held before. -/
theorem C5_assignment_right_associative (w0 w1 : List String)
    (fs : String → List String) (out : List String) :
    ParseExpressionAssign 20 ⟨c5Tokens, 0, c5Table w0 w1⟩ =
      .ok (c5Ast, ⟨c5Tokens, 5, c5Table w0 w1⟩) ∧
    Run fs 3 c5Ast ⟨c5Table w0 w1, out⟩ = .ok (["x"], ⟨c5Table ["x"] ["x"], out⟩) ∧
    (c5Table ["x"] ["x"]).VarValue 0 = some ["x"] ∧
    (c5Table ["x"] ["x"]).VarValue 1 = some ["x"] :=
  ⟨rfl, rfl, rfl, rfl⟩

/-- Unfolding of `AddVar` on a table whose scope stack is non-empty. -/
theorem AddVar_cons (st : SymbolTable) (l : Nat) (name : String)
    (sc : List (String × Nat)) (rest : List (List (String × Nat)))
    (hstack : st.scope_stack = sc :: rest) :
    st.AddVar l name =
      if (scopeLookup name sc).isSome = true then
        .error (.fatal l ("Redeclaration of variable '" ++ name ++ "'."))
      else
        .ok (st.var_info.length,
          ⟨st.var_info ++ [⟨name, [], l⟩],
           ((name, st.var_info.length) :: sc) :: rest⟩) := by
  rw [SymbolTable.AddVar, hstack]

/-- **C6.**  `AddVar` fails — with the fatal line-tagged `Error` — exactly
when the name is already bound in the innermost scope; redeclaring the name
after `IncScope` instead allocates a fresh slot that shadows the outer slot
in `GetVarID` until `DecScope` pops the block's scope, after which the outer
slot is visible again. -/
theorem C6_redeclaration_same_scope_only (st : SymbolTable) (l1 l2 l3 : Nat)
    (name : String) :
    (∀ sc rest, st.scope_stack = sc :: rest →
      ((∃ e, st.AddVar l1 name = .error e) ↔ (scopeLookup name sc).isSome = true)) ∧
    (∀ id1 st1, st.AddVar l1 name = .ok (id1, st1) →
      st1.AddVar l2 name =
        .error (.fatal l2 ("Redeclaration of variable '" ++ name ++ "'.")) ∧
      ∃ st3, st1.IncScope.AddVar l3 name = .ok (st1.var_info.length, st3) ∧
        id1 < st1.var_info.length ∧
        st3.GetVarID name = st1.var_info.length ∧
        ∃ st4, st3.DecScope = .ok st4 ∧ st4.GetVarID name = id1) := by
  constructor
  · intro sc rest hstack
    rw [AddVar_cons st l1 name sc rest hstack]
    by_cases hlook : (scopeLookup name sc).isSome = true
    · rw [if_pos hlook]
      exact ⟨fun _ => hlook, fun _ => ⟨_, rfl⟩⟩
    · rw [if_neg hlook]
      constructor
      · rintro ⟨e, he⟩
        cases he
      · intro h
        exact absurd h hlook
  · intro id1 st1 h
    rcases hstack : st.scope_stack with _ | ⟨sc, rest⟩
    · rw [SymbolTable.AddVar, hstack] at h
      cases h
    · rw [AddVar_cons st l1 name sc rest hstack] at h
      by_cases hlook : (scopeLookup name sc).isSome = true
      · rw [if_pos hlook] at h
        cases h
      · rw [if_neg hlook] at h
        injection h with h'
        injection h' with hid hst
        subst hid
        subst hst
        constructor
        · rw [AddVar_cons _ l2 name ((name, st.var_info.length) :: sc) rest rfl]
          rw [if_pos (by rw [scopeLookup, if_pos rfl]; rfl)]
        · refine ⟨⟨(st.var_info ++ [(⟨name, [], l1⟩ : SymbolInfo)]) ++
                [(⟨name, [], l3⟩ : SymbolInfo)],
              [(name, (st.var_info ++ [(⟨name, [], l1⟩ : SymbolInfo)]).length)] ::
                ((name, st.var_info.length) :: sc) :: rest⟩, ?_, ?_, ?_, ?_⟩
          · rw [AddVar_cons _ l3 name []
                (((name, st.var_info.length) :: sc) :: rest) rfl]
            rw [if_neg (by rw [scopeLookup]; simp)]
            rfl
          · simp
          · simp [SymbolTable.GetVarID, lookupScopes, scopeLookup]
          · refine ⟨⟨(st.var_info ++ [(⟨name, [], l1⟩ : SymbolInfo)]) ++
                  [(⟨name, [], l3⟩ : SymbolInfo)],
                ((name, st.var_info.length) :: sc) :: rest⟩, rfl, ?_⟩
            simp [SymbolTable.GetVarID, lookupScopes, scopeLookup]

/-- Table after `List a;` at top level (slot 0). -/
def c6Table1 : SymbolTable := ⟨[⟨"a", [], 1⟩], [[("a", 0)]]⟩

/-- Witness for C6: `List a; List a;` aborts with the line-tagged
redeclaration error, while `List a; { List a; }` allocates shadowing slot 1,
visible until the scope pops. -/
theorem C6_witness :
    emptyTable.AddVar 1 "a" = .ok (0, c6Table1) ∧
    c6Table1.AddVar 2 "a" = .error (.fatal 2 "Redeclaration of variable 'a'.") ∧
    ∃ st3, c6Table1.IncScope.AddVar 3 "a" = .ok (c6Table1.var_info.length, st3) ∧
      0 < c6Table1.var_info.length ∧
      st3.GetVarID "a" = c6Table1.var_info.length ∧
      ∃ st4, st3.DecScope = .ok st4 ∧ st4.GetVarID "a" = 0 := by
  have h := (C6_redeclaration_same_scope_only emptyTable 1 2 3 "a").2 0 c6Table1 rfl
  exact ⟨rfl, h.1, h.2⟩

/-- **C7.**  A `PRINT` node writes exactly one line per argument: each line is
`printWords` of that argument's evaluated set — `[`, every element prefixed
by `,` (the first included), a space, `]` — with the elements in ascending
string order (the well-formedness invariant keeps every evaluated set
strictly ascending); in particular the set `{"a","b"}` prints as the literal
line `[,a,b ]`. -/
theorem C7_print_one_line_per_argument (fs : String → List String) (n v : Nat)
    (w : List String) (cs : List ASTNode) (st : RState) (r : List String)
    (st' : RState) (hex : ExprNodeList cs = true)
    (h : Run fs n (.mk .PRINT v w cs) st = .ok (r, st')) :
    r = [] ∧
    (∃ ws : List (List String), ws.length = cs.length ∧
      st'.output = st.output ++ ws.map printWords ∧
      (WFNodeList cs → WFTable st.symbols →
        ∀ wset ∈ ws, List.Sorted (· < ·) wset)) ∧
    printWords ["a", "b"] = "[,a,b ]" := by
  cases n with
  | zero => simp [Run] at h
  | succ n =>
    simp only [Run] at h
    rw [except_bind_ok] at h
    obtain ⟨st1, h1, h⟩ := h
    injection h with h'
    injection h' with hr hst
    subst hr
    subst hst
    exact ⟨rfl, RunPrintSeq_lines fs n cs st st1 hex h1, rfl⟩

/-- Witness for C7: `print` of the literal set `{"a","b"}` emits the single
line `[,a,b ]`. -/
theorem C7_witness :
    ExprNodeList [litNode ["a", "b"]] = true ∧
    Run (fun _ => []) 3 (.mk .PRINT 0 [] [litNode ["a", "b"]]) ⟨emptyTable, []⟩ =
      .ok ([], ⟨emptyTable, ["[,a,b ]"]⟩) ∧
    (([] : List String) = [] ∧
      (∃ ws : List (List String), ws.length = [litNode ["a", "b"]].length ∧
        (⟨emptyTable, ["[,a,b ]"]⟩ : RState).output =
          (⟨emptyTable, []⟩ : RState).output ++ ws.map printWords ∧
        (WFNodeList [litNode ["a", "b"]] → WFTable (emptyTable : SymbolTable) →
          ∀ wset ∈ ws, List.Sorted (· < ·) wset)) ∧
      printWords ["a", "b"] = "[,a,b ]") :=
  ⟨rfl, rfl,
    C7_print_one_line_per_argument (fun _ => []) 3 0 [] [litNode ["a", "b"]]
      ⟨emptyTable, []⟩ [] ⟨emptyTable, ["[,a,b ]"]⟩ rfl rfl⟩

/-- **C8.**  A `LOAD` node cannot fail on the file system: once its single
child evaluates to the path set, the result is exactly the union of the
tokens of all paths — for EVERY file-system map `fs`, including any that
sends paths to `[]` (missing/unreadable files contribute zero words and no
error). -/
theorem C8_load_total_union (fs : String → List String) (n : Nat) (c : ASTNode)
    (st : RState) (paths : List String) (st1 : RState)
    (h : Run fs n c st = .ok (paths, st1)) :
    Run fs (n + 1) (.mk .LOAD 0 [] [c]) st = .ok (loadRun fs paths, st1) ∧
    ∀ w, w ∈ loadRun fs paths ↔ ∃ p ∈ paths, w ∈ fs p := by
  constructor
  · simp only [Run]
    rw [except_bind_ok]
    exact ⟨(paths, st1), h, rfl⟩
  · intro w
    exact loadRun_mem w fs paths

/-- The file system used by the C8 witness: one readable path. -/
def c8fs : String → List String :=
  fun p => if p = "good" then ["beta"] else []

/-- Witness for C8: loading `{"good","missing"}` succeeds, the missing path
contributes nothing, and the result is the union of the readable tokens. -/
theorem C8_witness :
    Run c8fs 1 (litNode ["good", "missing"]) ⟨emptyTable, []⟩ =
      .ok (["good", "missing"], ⟨emptyTable, []⟩) ∧
    Run c8fs 2 (.mk .LOAD 0 [] [litNode ["good", "missing"]]) ⟨emptyTable, []⟩ =
      .ok (["beta"], ⟨emptyTable, []⟩) ∧
    ∀ w, w ∈ loadRun c8fs ["good", "missing"] ↔
      ∃ p ∈ (["good", "missing"] : List String), w ∈ c8fs p := by
  have h := C8_load_total_union c8fs 1 (litNode ["good", "missing"])
    ⟨emptyTable, []⟩ ["good", "missing"] ⟨emptyTable, []⟩ rfl
  exact ⟨rfl, h.1, h.2⟩

/-- The (irrelevant) file system and initial state used by C9. -/
def c9fs : String → List String := fun _ => []

def c9st : RState := ⟨emptyTable, []⟩

/-- **C9 counterexample.**  The claim asserts that for SOME word sets A, B
the evaluated `(A - B) + B` differs from the evaluated `A + B`.  It is false:
for EVERY pair of word-set values the two evaluations agree — inserting all
of B after erasing all of B restores exactly the union, because these are
duplicate-free sets. -/
theorem C9_counterexample_no_such_pair :
    ¬ ∃ A B : List String, List.Sorted (· < ·) A ∧ List.Sorted (· < ·) B ∧
      Run c9fs 3 (mathNode 43 (mathNode 45 (litNode A) (litNode B)) (litNode B)) c9st ≠
        Run c9fs 3 (mathNode 43 (litNode A) (litNode B)) c9st := by
  rintro ⟨A, B, hA, hB, hne⟩
  apply hne
  have h1 : Run c9fs 3 (mathNode 43 (mathNode 45 (litNode A) (litNode B)) (litNode B))
      c9st = .ok (mathPlus (mathMinus A B) B, c9st) := rfl
  have h2 : Run c9fs 3 (mathNode 43 (litNode A) (litNode B)) c9st =
      .ok (mathPlus A B, c9st) := rfl
  rw [h1, h2]
  have heq : mathPlus (mathMinus A B) B = mathPlus A B := by
    refine sorted_ext _ _ (mathPlus_sorted _ _ (mathMinus_sorted _ _ hA))
      (mathPlus_sorted _ _ hA) ?_
    intro a
    rw [mathPlus_mem, mathPlus_mem, mathMinus_mem a A B hA.nodup]
    tauto
  rw [heq]

/-- **C9 amended.**  What does hold (and what the spec's "union is not the
idempotent inverse of difference" is after): `(A - B) + B` can differ from
`A` itself.  At `A = {}`, `B = {"x"}` the evaluation of `(A - B) + B` yields
`{"x"} ≠ A`. -/
theorem C9_amended_sub_then_add_not_identity :
    Run c9fs 3 (mathNode 43 (mathNode 45 (litNode []) (litNode ["x"])) (litNode ["x"]))
        c9st = .ok (["x"], c9st) ∧
    (["x"] : List String) ≠ [] := ⟨rfl, by simp⟩

/-- **C10.**  Evaluating any assignment-free expression node (any composition
of `VARIABLE`, `LITERAL`, `MATH_OP`, `LOAD`, `FILTER`, `FILTER_OUT`) leaves
the evaluator state — in particular every symbol-table slot — exactly as it
was.  (A `VARIABLE` read returns the slot's value by value, i.e. a copy; in
the pure embedding, result and state are separate, so no use of the result
can alter a slot.) -/
theorem C10_pure_expressions_preserve_slots (fs : String → List String) (n : Nat)
    (node : ASTNode) (st : RState) (r : List String) (st' : RState)
    (hna : NoAssignNode node = true) (h : Run fs n node st = .ok (r, st')) :
    st' = st ∧ ∀ id, st'.symbols.VarValue id = st.symbols.VarValue id := by
  have e := Run_noassign_frame fs n node st r st' hna h
  exact ⟨e, fun id => by rw [e]⟩

/-- Witness for C10: evaluating `Load({"f"}) + {"b"}` over a table with one
populated slot returns a fresh set and leaves the slot untouched. -/
theorem C10_witness :
    NoAssignNode (mathNode 43 (.mk .LOAD 0 [] [litNode ["f"]]) (litNode ["b"])) = true ∧
    Run (fun _ => ["w"]) 3
        (mathNode 43 (.mk .LOAD 0 [] [litNode ["f"]]) (litNode ["b"]))
        ⟨c6Table1, []⟩ =
      .ok (mathPlus (loadRun (fun _ => ["w"]) ["f"]) ["b"], ⟨c6Table1, []⟩) ∧
    (⟨c6Table1, []⟩ : RState) = ⟨c6Table1, []⟩ ∧
    ∀ id, (⟨c6Table1, []⟩ : RState).symbols.VarValue id =
      (⟨c6Table1, []⟩ : RState).symbols.VarValue id :=
  ⟨rfl, rfl,
    C10_pure_expressions_preserve_slots (fun _ => ["w"]) 3
      (mathNode 43 (.mk .LOAD 0 [] [litNode ["f"]]) (litNode ["b"]))
      ⟨c6Table1, []⟩ (mathPlus (loadRun (fun _ => ["w"]) ["f"]) ["b"])
      ⟨c6Table1, []⟩ rfl rfl⟩
